import Mathlib

/-!
Verification of the `delayQueue` package (`redisx/delayQueue/queue.go` plus the
embedded `task.lua` script) of the GoToolkit repository.

The backing Redis structures are modelled as association lists:
a sorted-set (`ZSet`) mapping task id to its score (the Unix-seconds due time),
and a hash (`Hash`) mapping task id to its serialized payload.  Times are
integers in nanoseconds (`Int`); Go's `time.Time.Unix()` truncates to whole
seconds, i.e. floor division by 10^9, which is `Int` division `/` (Euclidean
division, equal to floor division for the positive divisor 10^9).
-/

namespace DelayQueue

/-- A sorted-set entry: member (task id) and score (due time, Unix seconds). -/
abbrev Entry := String × Int

/-- Model of the Redis sorted set `queueKey:delayed`. -/
abbrev ZSet := List Entry

/-- Model of the Redis hash `queueKey:tasks` (task id to payload bytes). -/
abbrev Hash := List (String × String)

/-- One nanosecond short of nothing: nanoseconds per second, the divisor used
by `time.Time.Unix()`. -/
def nsPerSec : Int := 1000000000

/-- `time.Time.Unix()` for a time given in nanoseconds since the epoch:
floor division by 10^9 (Go stores seconds and a nonnegative nanosecond
remainder separately, so the seconds value is the floor). -/
def unixSec (ns : Int) : Int := ns / nsPerSec

/-- Redis orders a sorted set by score, ties broken by member lexicographically.
`entryLtb a b` is true when `a` comes strictly before `b` in that order. -/
def entryLtb (a b : Entry) : Bool :=
  decide (a.2 < b.2) || (decide (a.2 = b.2) && decide (a.1 < b.1))

/-- The earlier of two entries in Redis sorted-set order. -/
def pickMin (a b : Entry) : Entry := if entryLtb b a then b else a

/-- `ZRANGEBYSCORE key -inf now LIMIT 0 1`: the first entry (in score order,
ties by member) among those with score at most `now`, if any. -/
def zFirst (z : ZSet) (now : Int) : Option Entry :=
  match z.filter (fun e => decide (e.2 ≤ now)) with
  | [] => none
  | e :: es => some (es.foldl pickMin e)

/-- The embedded `task.lua` script:
`local task = redis.call('ZRANGEBYSCORE', KEYS[1], '-inf', ARGV[1], 'LIMIT', 0, 1)`
`if #task == 0 then return nil end`
`redis.call('ZREM', KEYS[1], task[1])`
`return task[1]`
Returns the claimed member (or `none` for the nil reply) and the updated set. -/
def taskLua (z : ZSet) (now : Int) : Option String × ZSet :=
  match zFirst z now with
  | none => (none, z)
  | some e => (some e.1, z.filter (fun x => x.1 != e.1))

/-- `ZADD`: insert the member with the given score, replacing any previous
score for the same member. -/
def zadd (z : ZSet) (id : String) (score : Int) : ZSet :=
  (id, score) :: z.filter (fun e => e.1 != id)

/-- `HSET`: insert or overwrite a hash field. -/
def hset (h : Hash) (id v : String) : Hash :=
  (id, v) :: h.filter (fun e => e.1 != id)

/-- `HGET`: look up a hash field (`none` models the redis.Nil reply). -/
def hget (h : Hash) (id : String) : Option String :=
  (h.find? (fun e => e.1 == id)).map Prod.snd

/-- `HDEL`: remove a hash field (idempotent). -/
def hdel (h : Hash) (id : String) : Hash :=
  h.filter (fun e => e.1 != id)

/-- The two Redis structures used by one queue instance. -/
structure Store where
  z : ZSet
  h : Hash
deriving DecidableEq

/-- The due time recorded by `Add`: `time.Now().Add(delay).Unix()`, i.e. the
enqueue time plus the delay, truncated to whole seconds. -/
def addDueAt (enqNs delayNs : Int) : Int := unixSec (enqNs + delayNs)

/-- `Queue.Add` (success path): `ZAdd(queueKey:delayed, {dueAt, taskID})` and
`HSet(queueKey:tasks, taskID, taskData)` executed in one `TxPipeline`
transaction.  `taskData` is the serialized payload. -/
def addGo (s : Store) (taskID taskData : String) (enqNs delayNs : Int) : Store :=
  { z := zadd s.z taskID (addDueAt enqNs delayNs)
    h := hset s.h taskID taskData }

/-- The configuration fields of `Queue` set by `NewQueue` and its options.
Durations are nanoseconds (Go `time.Duration`).  `handlerTimeout` is not set
by `NewQueue`, so its default is the Go zero value 0. -/
structure Config where
  pollInterval : Int
  handlerTimeout : Int
  concurrency : Nat
deriving DecidableEq

/-- The defaults assigned in `NewQueue` before options are applied:
`pollInterval: time.Second`, `concurrency: 10`, and `handlerTimeout`
left at its zero value. -/
def defaultConfig : Config :=
  { pollInterval := 1000000000, handlerTimeout := 0, concurrency := 10 }

/-- `WithPollInterval`. -/
def withPollInterval (d : Int) : Config → Config :=
  fun c => { c with pollInterval := d }

/-- `WithHandlerTimeout`. -/
def withHandlerTimeout (d : Int) : Config → Config :=
  fun c => { c with handlerTimeout := d }

/-- `WithConcurrency`. -/
def withConcurrency (n : Nat) : Config → Config :=
  fun c => { c with concurrency := n }

/-- `NewQueue`: the default configuration with the option list applied in
order. -/
def newQueueConfig (opts : List (Config → Config)) : Config :=
  opts.foldl (fun c o => o c) defaultConfig

/-- A Go `context.Context` deadline: `none` for `context.Background()`. -/
abbrev CtxDeadline := Option Int

/-- `context.WithTimeout(parent, d)` at current time `now`: the deadline is
`now + d`, or the parent's deadline if that is earlier. -/
def withTimeout (parent : CtxDeadline) (now d : Int) : CtxDeadline :=
  match parent with
  | none => some (now + d)
  | some p => some (min p (now + d))

/-- Whether a context with the given deadline is done (deadline exceeded) at
time `t`.  Go cancels the context as soon as the deadline is not in the
future, so `d = 0` in `WithTimeout` yields a context that is already done. -/
def ctxDone (dl : CtxDeadline) (t : Int) : Bool :=
  match dl with
  | none => false
  | some d => decide (d ≤ t)

/-- The observable outcome of one `handleTask` invocation. -/
structure ExecResult where
  /-- Deadline of the context passed to the payload fetch, the user handler
  and the payload delete (all three receive the same `ctx`). -/
  ctxDeadline : CtxDeadline
  /-- Whether `HGet` returned the payload. -/
  fetchOk : Bool
  /-- Whether the user handler was invoked at all. -/
  handlerInvoked : Bool
  /-- Whether the user handler returned success. -/
  handlerOk : Bool
  /-- Whether `HDel` was issued. -/
  deleteAttempted : Bool
  /-- The payload hash after the invocation. -/
  hash : Hash
deriving DecidableEq

/-- The context built at the top of `Queue.handleTask`:
`ctx, cancel := context.WithTimeout(ctx, q.handlerTimeout)`, over the
background context handed down from `processBatch`, at start time `t0`. -/
def handleCtx (handlerTimeout t0 : Int) : CtxDeadline :=
  withTimeout none t0 handlerTimeout

/-- `Queue.handleTask` for a claimed `taskID`, starting at time `t0` with the
payload hash `hash`.  The one context `handleCtx handlerTimeout t0` is used
for all three steps.  `tFetch` and `tDelete` are the times at which the
`HGet` and the `HDel` round-trips complete: the client aborts a call whose
context deadline has passed.  `handlerOk` is the result the user handler
would return if invoked (a handler that respects the context reports failure
on timeout; the model takes the result as an oracle). -/
def handleTask (handlerTimeout t0 tFetch tDelete : Int)
    (hash : Hash) (taskID : String) (handlerOk : Bool) : ExecResult :=
  if ctxDone (handleCtx handlerTimeout t0) tFetch then
    { ctxDeadline := handleCtx handlerTimeout t0, fetchOk := false,
      handlerInvoked := false, handlerOk := false,
      deleteAttempted := false, hash := hash }
  else
    match hget hash taskID with
    | none =>
      { ctxDeadline := handleCtx handlerTimeout t0, fetchOk := false,
        handlerInvoked := false, handlerOk := false,
        deleteAttempted := false, hash := hash }
    | some _ =>
      if handlerOk then
        if ctxDone (handleCtx handlerTimeout t0) tDelete then
          { ctxDeadline := handleCtx handlerTimeout t0, fetchOk := true,
            handlerInvoked := true, handlerOk := true,
            deleteAttempted := true, hash := hash }
        else
          { ctxDeadline := handleCtx handlerTimeout t0, fetchOk := true,
            handlerInvoked := true, handlerOk := true,
            deleteAttempted := true, hash := hdel hash taskID }
      else
        { ctxDeadline := handleCtx handlerTimeout t0, fetchOk := true,
          handlerInvoked := true, handlerOk := false,
          deleteAttempted := false, hash := hash }

/-- Errors visible to `fetchTask`: the redis.Nil sentinel that the go-redis
client returns for a nil script reply, or a genuine script error. -/
inductive FetchErr where
  | nilSentinel
  | scriptErr
deriving DecidableEq

/-- `redis.NewScript(luaScript).Run(...).Text()`: the script's nil reply
becomes the pair of the empty string and the redis.Nil error. -/
def scriptRunText (z : ZSet) (now : Int) : (String × Option FetchErr) × ZSet :=
  match taskLua z now with
  | (some id, z') => ((id, none), z')
  | (none, z') => (("", some .nilSentinel), z')

/-- `Queue.fetchTask`: runs the script and applies the guard
`if err != nil && err != redis.Nil { return "", wrapped }` followed by
`return val, nil` — so the redis.Nil error is swallowed and the empty reply
comes back as the empty string with a nil error. -/
def fetchTaskGo (z : ZSet) (now : Int) : (String × Option FetchErr) × ZSet :=
  match scriptRunText z now with
  | ((val, some e), z') =>
    if e = .nilSentinel then ((val, none), z') else (("", some e), z')
  | ((val, none), z') => ((val, none), z')

/-- What one iteration of `processBatch`'s inner loop does after its
semaphore reservation succeeded. -/
inductive BatchAction where
  /-- `go q.handleTask(ctx, taskID, handler, sem)` is launched and the loop
  continues. -/
  | spawnHandle (taskID : String)
  /-- The `err == redis.Nil` branch: release the unit and end the loop. -/
  | endNil
  /-- The logging branch for other errors: release the unit and end the loop. -/
  | endErr
deriving DecidableEq

/-- One iteration of `processBatch`'s inner loop (after `sem <- struct{}{}`
succeeded): call `fetchTask` and either spawn `handleTask` on a nil error or
release the unit and end the loop on a non-nil error. -/
def processBatchIter (z : ZSet) (now : Int) : BatchAction × ZSet :=
  match fetchTaskGo z now with
  | ((taskID, none), z') => (.spawnHandle taskID, z')
  | ((_, some .nilSentinel), z') => (.endNil, z')
  | ((_, some .scriptErr), z') => (.endErr, z')

/-- The lifecycle flags of one `Queue` instance: whether `q.cancel()` has
been called and whether the `q.stopped` channel has been closed. -/
structure LifeState where
  cancelled : Bool
  stoppedClosed : Bool
deriving DecidableEq

/-- Result of `close(q.stopped)`: Go panics on closing a closed channel. -/
inductive CloseResult where
  | ok (l : LifeState)
  | panicked
deriving DecidableEq

/-- `close(q.stopped)`. -/
def closeStopped (l : LifeState) : CloseResult :=
  if l.stoppedClosed then .panicked else .ok { l with stoppedClosed := true }

/-- A `run` loop launched while `q.ctx` is already cancelled: the `select`
takes `<-q.ctx.Done()` and returns, and the deferred `close(q.stopped)`
executes.  Otherwise the loop keeps polling (no exit, state unchanged). -/
def runWhenCancelled (l : LifeState) : CloseResult :=
  if l.cancelled then closeStopped l else .ok l

/-- The fields of a freshly constructed queue: context not cancelled,
`stopped` channel open. -/
def newQueueLife : LifeState := { cancelled := false, stoppedClosed := false }

/-- `Queue.Stop`: `q.cancel()`, then block on `<-q.stopped` until the running
loop observes cancellation, returns, and closes the channel. -/
def stopSequence (l : LifeState) : CloseResult :=
  runWhenCancelled { l with cancelled := true }

/-- `Start`, `Stop`, then `Start` again on the same instance: the first
loop exits during `Stop` and closes `q.stopped`; the second `run` loop finds
`q.ctx` already cancelled, exits at once, and its deferred close executes on
the already-closed channel. -/
def startStopStart : CloseResult :=
  match stopSequence newQueueLife with
  | .ok l1 => runWhenCancelled l1
  | .panicked => .panicked

/-- Global state of one queue instance for the concurrency and lifecycle
step relation: the lifecycle flags, the semaphore channel occupancy, the
number of live `handleTask` goroutines in each phase, the schedule index,
and a counter of claim-script calls issued by `fetchTask`. -/
structure QState where
  /-- `q.ctx` has been cancelled (`Stop` called). -/
  cancelled : Bool
  /-- The `run` loop has returned and closed `q.stopped`; `Stop` can only
  return once this holds. -/
  exited : Bool
  /-- Number of units currently held in the buffered channel `sem`. -/
  semUsed : Nat
  /-- Live `handleTask` goroutines still in the `HGet` step. -/
  nFetch : Nat
  /-- Live `handleTask` goroutines currently inside the user handler call. -/
  nHandle : Nat
  /-- Live `handleTask` goroutines in the `HDel` step. -/
  nDelete : Nat
  /-- The schedule index. -/
  z : ZSet
  /-- Number of claim-script calls issued so far. -/
  claims : Nat
deriving DecidableEq

/-- The initial state produced by `NewQueue` and `Start`: nothing running,
semaphore empty, no claims issued. -/
def initState (z : ZSet) : QState :=
  { cancelled := false, exited := false, semUsed := 0,
    nFetch := 0, nHandle := 0, nDelete := 0, z := z, claims := 0 }

/-- Small-step semantics of the running queue.  `spawnIter` is one
iteration of `processBatch`'s inner loop whose `select` reserved a unit
(only possible while the buffered channel has spare capacity, and only from
a live loop); per `fetchTaskGo` the claim reply — even the empty one — comes
back with a nil error, so the iteration always launches a `handleTask`
goroutine holding the unit.  `iterErr` is the genuine-script-error path,
which releases its unit within the iteration.  Each live goroutine advances
through fetch, handler and delete phases and releases its unit exactly once
when it returns (the deferred `<-sem`).  `stopCancel` is `q.cancel()`;
`loopExit` is the `run` loop observing cancellation and returning. -/
inductive QStep (cfg : Config) : QState → QState → Prop where
  | spawnIter (s : QState) (now : Int)
      (hrun : s.exited = false) (hcap : s.semUsed < cfg.concurrency) :
      QStep cfg s { s with semUsed := s.semUsed + 1, nFetch := s.nFetch + 1,
                           claims := s.claims + 1, z := (fetchTaskGo s.z now).2 }
  | iterErr (s : QState)
      (hrun : s.exited = false) (hcap : s.semUsed < cfg.concurrency) :
      QStep cfg s { s with claims := s.claims + 1 }
  | fetchFail (s : QState) (h : 0 < s.nFetch) :
      QStep cfg s { s with nFetch := s.nFetch - 1, semUsed := s.semUsed - 1 }
  | fetchOk (s : QState) (h : 0 < s.nFetch) :
      QStep cfg s { s with nFetch := s.nFetch - 1, nHandle := s.nHandle + 1 }
  | handleFail (s : QState) (h : 0 < s.nHandle) :
      QStep cfg s { s with nHandle := s.nHandle - 1, semUsed := s.semUsed - 1 }
  | handleOk (s : QState) (h : 0 < s.nHandle) :
      QStep cfg s { s with nHandle := s.nHandle - 1, nDelete := s.nDelete + 1 }
  | deleteDone (s : QState) (h : 0 < s.nDelete) :
      QStep cfg s { s with nDelete := s.nDelete - 1, semUsed := s.semUsed - 1 }
  | stopCancel (s : QState) :
      QStep cfg s { s with cancelled := true }
  | loopExit (s : QState) (hrun : s.exited = false) (hc : s.cancelled = true) :
      QStep cfg s { s with exited := true }

/-- Reachability from the freshly started queue. -/
def Reachable (cfg : Config) (z : ZSet) (s : QState) : Prop :=
  Relation.ReflTransGen (QStep cfg) (initState z) s

theorem entryLtb_true_score_le {a b : Entry} (h : entryLtb a b = true) :
    a.2 ≤ b.2 := by
  simp only [entryLtb, Bool.or_eq_true, Bool.and_eq_true, decide_eq_true_eq] at h
  rcases h with h | ⟨h, _⟩
  · exact le_of_lt h
  · exact le_of_eq h

theorem entryLtb_false_score_le {a b : Entry} (h : entryLtb a b = false) :
    b.2 ≤ a.2 := by
  simp only [entryLtb, Bool.or_eq_false_iff, decide_eq_false_iff_not] at h
  exact le_of_not_lt h.1

theorem pickMin_score_le_left (a b : Entry) : (pickMin a b).2 ≤ a.2 := by
  unfold pickMin
  rcases hlt : entryLtb b a with _ | _
  · simp only [Bool.false_eq_true, if_false]
    exact le_refl _
  · simp only [if_true]
    exact entryLtb_true_score_le hlt

theorem pickMin_score_le_right (a b : Entry) : (pickMin a b).2 ≤ b.2 := by
  unfold pickMin
  rcases hlt : entryLtb b a with _ | _
  · simp only [Bool.false_eq_true, if_false]
    exact entryLtb_false_score_le hlt
  · simp only [if_true]
    exact le_refl _

theorem pickMin_eq_or (a b : Entry) : pickMin a b = a ∨ pickMin a b = b := by
  unfold pickMin
  rcases entryLtb b a with _ | _
  · left; rfl
  · right; rfl

theorem foldl_pickMin_mem (e : Entry) (es : List Entry) :
    es.foldl pickMin e = e ∨ es.foldl pickMin e ∈ es := by
  induction es generalizing e with
  | nil => left; rfl
  | cons b bs ih =>
    simp only [List.foldl_cons]
    rcases ih (pickMin e b) with h | h
    · rcases pickMin_eq_or e b with h2 | h2
      · left; rw [h, h2]
      · right; rw [h, h2]; exact List.mem_cons_self _ _
    · right; exact List.mem_cons_of_mem _ h

theorem foldl_pickMin_score_le (e : Entry) (es : List Entry) :
    ∀ x, (x = e ∨ x ∈ es) → (es.foldl pickMin e).2 ≤ x.2 := by
  induction es generalizing e with
  | nil =>
    intro x hx
    rcases hx with rfl | h
    · exact le_refl _
    · exact absurd h (List.not_mem_nil x)
  | cons b bs ih =>
    intro x hx
    simp only [List.foldl_cons]
    rcases hx with rfl | hx
    · exact le_trans (ih (pickMin x b) _ (Or.inl rfl)) (pickMin_score_le_left x b)
    · rcases List.mem_cons.mp hx with rfl | hx
      · exact le_trans (ih (pickMin e x) _ (Or.inl rfl)) (pickMin_score_le_right e x)
      · exact ih (pickMin e b) x (Or.inr hx)

theorem zFirst_eq_none_iff {z : ZSet} {now : Int} :
    zFirst z now = none ↔ ∀ x ∈ z, now < x.2 := by
  rcases hf : z.filter (fun e => decide (e.2 ≤ now)) with _ | ⟨e, es⟩
  · unfold zFirst
    rw [hf]
    simp only [List.filter_eq_nil_iff, decide_eq_true_eq] at hf
    simp only [true_iff]
    intro x hx
    exact lt_of_not_le (hf x hx)
  · unfold zFirst
    rw [hf]
    simp only [reduceCtorEq, false_iff, not_forall]
    have he : e ∈ z.filter (fun e => decide (e.2 ≤ now)) := by
      rw [hf]; exact List.mem_cons_self _ _
    have hx := List.mem_filter.mp he
    exact ⟨e, hx.1, not_lt.mpr (by simpa using hx.2)⟩

theorem zFirst_mem_due {z : ZSet} {now : Int} {e : Entry}
    (h : zFirst z now = some e) : e ∈ z ∧ e.2 ≤ now := by
  unfold zFirst at h
  rcases hf : z.filter (fun e => decide (e.2 ≤ now)) with _ | ⟨a, es⟩
  · rw [hf] at h; exact absurd h (by simp)
  · rw [hf] at h
    have he : es.foldl pickMin a = e := Option.some.inj h
    have hmem : e ∈ z.filter (fun x => decide (x.2 ≤ now)) := by
      rw [hf, ← he]
      rcases foldl_pickMin_mem a es with h2 | h2
      · rw [h2]; exact List.mem_cons_self _ _
      · exact List.mem_cons_of_mem _ h2
    have hx := List.mem_filter.mp hmem
    exact ⟨hx.1, by simpa using hx.2⟩

theorem zFirst_min {z : ZSet} {now : Int} {e : Entry}
    (h : zFirst z now = some e) : ∀ x ∈ z, x.2 ≤ now → e.2 ≤ x.2 := by
  intro x hx hxd
  unfold zFirst at h
  rcases hf : z.filter (fun e => decide (e.2 ≤ now)) with _ | ⟨a, es⟩
  · rw [hf] at h; exact absurd h (by simp)
  · rw [hf] at h
    have he : es.foldl pickMin a = e := Option.some.inj h
    have hxf : x ∈ z.filter (fun x => decide (x.2 ≤ now)) :=
      List.mem_filter.mpr ⟨hx, by simpa using hxd⟩
    rw [hf] at hxf
    rcases List.mem_cons.mp hxf with rfl | hxm
    · rw [← he]; exact foldl_pickMin_score_le _ es x (Or.inl rfl)
    · rw [← he]; exact foldl_pickMin_score_le a es x (Or.inr hxm)

theorem taskLua_fst_some {z : ZSet} {now : Int} {id : String}
    (h : (taskLua z now).1 = some id) : ∃ e ∈ z, e.1 = id ∧ e.2 ≤ now := by
  unfold taskLua at h
  rcases hz : zFirst z now with _ | e
  · rw [hz] at h; exact absurd h (by simp)
  · rw [hz] at h
    have hd := zFirst_mem_due hz
    exact ⟨e, hd.1, Option.some.inj h, hd.2⟩

theorem taskLua_some_snd {z : ZSet} {now : Int} {e : Entry}
    (hz : zFirst z now = some e) :
    taskLua z now = (some e.1, z.filter (fun x => x.1 != e.1)) := by
  unfold taskLua
  rw [hz]

/-- Claim C4: the claim operation (the atomic `task.lua` script) returns a
member of the schedule index whose due time is at most `now` and is minimal
among all due entries, removes exactly that id from the index, and returns
the empty sentinel (leaving the index unchanged) precisely when no entry is
due; a second claim on the resulting index can never return the same id
again. -/
theorem claimDue_spec (z : ZSet) (now : Int) :
    ((taskLua z now).1 = none → (taskLua z now).2 = z ∧ ∀ x ∈ z, now < x.2) ∧
    (∀ id, (taskLua z now).1 = some id →
      (∃ due, (id, due) ∈ z ∧ due ≤ now ∧ ∀ x ∈ z, x.2 ≤ now → due ≤ x.2) ∧
      (∀ x ∈ (taskLua z now).2, x ∈ z ∧ x.1 ≠ id) ∧
      (∀ x ∈ z, x.1 ≠ id → x ∈ (taskLua z now).2) ∧
      (∀ now', (taskLua (taskLua z now).2 now').1 ≠ some id)) := by
  constructor
  · intro hn
    unfold taskLua at hn ⊢
    rcases hz : zFirst z now with _ | e
    · exact ⟨rfl, zFirst_eq_none_iff.mp hz⟩
    · rw [hz] at hn
      exact absurd hn (by simp)
  · intro id hs
    have hlua : taskLua z now = (some id, (taskLua z now).2) := by
      rcases hr : taskLua z now with ⟨r1, r2⟩
      rw [hr] at hs
      simp only at hs
      rw [hs]
    rcases hz : zFirst z now with _ | e
    · unfold taskLua at hs
      rw [hz] at hs
      exact absurd hs (by simp)
    · have heq := taskLua_some_snd hz
      have hid : e.1 = id := by
        rw [heq] at hs
        exact Option.some.inj hs
      have hsnd : (taskLua z now).2 = z.filter (fun x => x.1 != e.1) := by
        rw [heq]
      have hd := zFirst_mem_due hz
      refine ⟨⟨e.2, ?_, hd.2, zFirst_min hz⟩, ?_, ?_, ?_⟩
      · rw [← hid]
        exact hd.1
      · intro x hx
        rw [hsnd] at hx
        have hm := List.mem_filter.mp hx
        refine ⟨hm.1, ?_⟩
        rw [← hid]
        simpa using hm.2
      · intro x hx hne
        rw [hsnd]
        refine List.mem_filter.mpr ⟨hx, ?_⟩
        rw [← hid] at hne
        simpa using hne
      · intro now' hcontra
        rcases taskLua_fst_some hcontra with ⟨e', he', hid', _⟩
        rw [hsnd] at he'
        have hm := List.mem_filter.mp he'
        have : e'.1 ≠ e.1 := by simpa using hm.2
        exact this (hid.symm ▸ hid')

/-- Witness for `claimDue_spec` at a concrete index: among the entries
`("b", 3)` and `("a", 1)` with `now = 2`, only `("a", 1)` is due, it is
claimed, and no later claim on the remaining index can return `"a"`. -/
theorem claimDue_spec_witness :
    (∃ due, ("a", due) ∈ ([("b", 3), ("a", 1)] : ZSet) ∧ due ≤ 2 ∧
      ∀ x ∈ ([("b", 3), ("a", 1)] : ZSet), x.2 ≤ 2 → due ≤ x.2) ∧
    (∀ now', (taskLua (taskLua [("b", 3), ("a", 1)] 2).2 now').1 ≠ some "a") :=
  ⟨((claimDue_spec [("b", 3), ("a", 1)] 2).2 "a" (by decide)).1,
   ((claimDue_spec [("b", 3), ("a", 1)] 2).2 "a" (by decide)).2.2.2⟩

/-- Claim C1 (code bug): on an empty claim result the inner loop does not
end and no unit is released — a handler-execution goroutine is launched
instead.  `fetchTask` swallows the redis.Nil sentinel (its guard is
`err != nil && err != redis.Nil`, after which it returns `val, nil`), so
`processBatch` sees a nil error with an empty task id and runs
`go q.handleTask(ctx, "", handler, sem)`; its `err == redis.Nil` branch is
dead.  Shown on an empty schedule index and on an index whose only task is
not yet due. -/
theorem emptyClaimSpawnsHandler_bug :
    processBatchIter [] 0 = (.spawnHandle "", []) ∧
    processBatchIter [("a", 99)] 5 = (.spawnHandle "", [("a", 99)]) := by
  decide

/-- Claim C2 (code bug): under the default configuration (`NewQueue` without
`WithHandlerTimeout`, so `handlerTimeout` is the Go zero value 0),
`handleTask` builds `context.WithTimeout(ctx, 0)` — a context that carries
deadline `t0` and is already expired — so the payload fetch fails at once
and the user handler is never invoked, even though the payload is present
and the handler would succeed. -/
theorem defaultTimeoutNeverRunsHandler_bug :
    (newQueueConfig []).handlerTimeout = 0 ∧
    hget [("t", "p")] "t" = some "p" ∧
    (handleTask (newQueueConfig []).handlerTimeout 0 0 0
      [("t", "p")] "t" true).ctxDeadline = some 0 ∧
    (handleTask (newQueueConfig []).handlerTimeout 0 0 0
      [("t", "p")] "t" true).handlerInvoked = false := by
  decide

/-- Claim C3 counterexample: the payload fetch and the payload delete ARE
subject to the handler-timeout deadline.  With timeout 5s a fetch completing
at 6s is aborted although the payload is present; with timeout 7s a delete
reached at 8s after a successful handler leaves the payload entry in
place. -/
theorem timeoutBoundsFetchAndDelete_cex :
    hget [("a", "x")] "a" = some "x" ∧
    (handleTask 5000000000 0 6000000000 6500000000
      [("a", "x")] "a" true).fetchOk = false ∧
    (handleTask 7000000000 0 1000000000 8000000000
      [("a", "x")] "a" true).handlerOk = true ∧
    (handleTask 7000000000 0 1000000000 8000000000
      [("a", "x")] "a" true).hash = [("a", "x")] := by
  decide

/-- Claim C3 (amended): the configured handler timeout bounds the whole of
`handleTask`, not only the handler invocation: fetch, handler and delete all
receive the single context with deadline `t0 + handlerTimeout`; a fetch at
or past that deadline is aborted before the handler runs, and a delete at or
past it leaves the payload hash unchanged. -/
theorem timeoutSharedDeadline_amended (timeout t0 tFetch tDelete : Int)
    (hash : Hash) (id : String) (hr : Bool) :
    (handleTask timeout t0 tFetch tDelete hash id hr).ctxDeadline
      = some (t0 + timeout) ∧
    (t0 + timeout ≤ tFetch →
      handleTask timeout t0 tFetch tDelete hash id hr =
        { ctxDeadline := some (t0 + timeout), fetchOk := false,
          handlerInvoked := false, handlerOk := false,
          deleteAttempted := false, hash := hash }) ∧
    (t0 + timeout ≤ tDelete →
      (handleTask timeout t0 tFetch tDelete hash id hr).hash = hash) := by
  have hc : handleCtx timeout t0 = some (t0 + timeout) := rfl
  refine ⟨?_, ?_, ?_⟩
  · simp only [handleTask]
    split
    · rfl
    · cases hh : hget hash id with
      | none => rfl
      | some d =>
        cases hr with
        | false => rfl
        | true =>
          simp only [if_true]
          split <;> rfl
  · intro hle
    have hF : ctxDone (handleCtx timeout t0) tFetch = true := by
      rw [hc]
      simpa [ctxDone] using hle
    simp only [handleTask, hF, if_true]
    rfl
  · intro hle
    have hD : ctxDone (handleCtx timeout t0) tDelete = true := by
      rw [hc]
      simpa [ctxDone] using hle
    simp only [handleTask]
    split
    · rfl
    · cases hh : hget hash id with
      | none => rfl
      | some d =>
        cases hr with
        | false => rfl
        | true => simp only [if_true, hD]

/-- Witness for `timeoutSharedDeadline_amended`: with timeout 1ns starting
at 0, a fetch at 2ns is aborted by the shared deadline and nothing runs. -/
theorem timeoutSharedDeadline_amended_witness :
    handleTask 1 0 2 3 [("w", "v")] "w" true =
      { ctxDeadline := some 1, fetchOk := false, handlerInvoked := false,
        handlerOk := false, deleteAttempted := false, hash := [("w", "v")] } :=
  (timeoutSharedDeadline_amended 1 0 2 3 [("w", "v")] "w" true).2.1 (by decide)

/-- Claim C6 counterexample: with handler timeout 3s, a handler that returns
success at 4s (a handler is free to ignore its context) is followed by a
delete attempt on the already-expired context: the payload entry is NOT
removed although the handler invocation returned success. -/
theorem successLeavesPayload_cex :
    (handleTask 3000000000 0 1000000000 4000000000
      [("k", "v")] "k" true).handlerInvoked = true ∧
    (handleTask 3000000000 0 1000000000 4000000000
      [("k", "v")] "k" true).handlerOk = true ∧
    (handleTask 3000000000 0 1000000000 4000000000
      [("k", "v")] "k" true).deleteAttempted = true ∧
    (handleTask 3000000000 0 1000000000 4000000000
      [("k", "v")] "k" true).hash = [("k", "v")] := by
  decide

/-- Claim C6 (amended): for a claimed task whose payload fetch succeeded,
handler success makes the executor issue the payload delete — the entry is
removed exactly when the delete itself beats the shared deadline, and stays
otherwise (the error is only logged); handler failure or a
timeout reported by the handler causes no delete at all and leaves the
payload hash unchanged (no retry, no requeue). -/
theorem deletePolicy_amended (timeout t0 tFetch tDelete : Int)
    (hash : Hash) (id : String) (hr : Bool)
    (hfetch : ctxDone (handleCtx timeout t0) tFetch = false)
    (hpresent : (hget hash id).isSome = true) :
    (hr = true →
      (handleTask timeout t0 tFetch tDelete hash id hr).deleteAttempted = true ∧
      (ctxDone (handleCtx timeout t0) tDelete = false →
        (handleTask timeout t0 tFetch tDelete hash id hr).hash = hdel hash id) ∧
      (ctxDone (handleCtx timeout t0) tDelete = true →
        (handleTask timeout t0 tFetch tDelete hash id hr).hash = hash)) ∧
    (hr = false →
      (handleTask timeout t0 tFetch tDelete hash id hr).deleteAttempted = false ∧
      (handleTask timeout t0 tFetch tDelete hash id hr).hash = hash) := by
  cases hh : hget hash id with
  | none =>
    rw [hh] at hpresent
    exact absurd hpresent (by simp)
  | some d =>
    constructor
    · intro hr1
      subst hr1
      refine ⟨?_, ?_, ?_⟩
      · simp only [handleTask, hfetch, Bool.false_eq_true, if_false, hh,
                   eq_self_iff_true, if_true]
        split <;> rfl
      · intro hdl
        simp only [handleTask, hfetch, hdl, Bool.false_eq_true, if_false, hh,
                   eq_self_iff_true, if_true]
      · intro hdl
        simp only [handleTask, hfetch, hdl, Bool.false_eq_true, if_false, hh,
                   eq_self_iff_true, if_true]
    · intro hr0
      subst hr0
      simp only [handleTask, hfetch, Bool.false_eq_true, if_false, hh]
      exact ⟨trivial, trivial⟩

/-- Witness for `deletePolicy_amended`: timeout 10s, fetch at 1s, successful
handler, delete at 2s — the delete is issued and the entry is removed. -/
theorem deletePolicy_amended_witness :
    (handleTask 10000000000 0 1000000000 2000000000
      [("k", "v")] "k" true).deleteAttempted = true ∧
    (handleTask 10000000000 0 1000000000 2000000000
      [("k", "v")] "k" true).hash = hdel [("k", "v")] "k" :=
  ⟨((deletePolicy_amended 10000000000 0 1000000000 2000000000 [("k", "v")] "k"
      true (by decide) (by decide)).1 rfl).1,
   ((deletePolicy_amended 10000000000 0 1000000000 2000000000 [("k", "v")] "k"
      true (by decide) (by decide)).1 rfl).2.1 (by decide)⟩

theorem nodup_keys_eq {l : List Entry} (hnd : (l.map Prod.fst).Nodup)
    {a : String} {b c : Int} (hb : (a, b) ∈ l) (hc : (a, c) ∈ l) : b = c := by
  induction l with
  | nil => exact absurd hb (List.not_mem_nil _)
  | cons x xs ih =>
    rw [List.map_cons, List.nodup_cons] at hnd
    rcases List.mem_cons.mp hb with hb1 | hb' <;>
      rcases List.mem_cons.mp hc with hc1 | hc'
    · rw [← hb1] at hc1
      exact (Prod.mk.injEq _ _ _ _ ▸ hc1).2.symm
    · refine absurd (List.mem_map_of_mem Prod.fst hc') ?_
      have hx : x.1 = a := by rw [← hb1]
      rw [hx] at hnd
      exact hnd.1
    · refine absurd (List.mem_map_of_mem Prod.fst hb') ?_
      have hx : x.1 = a := by rw [← hc1]
      rw [hx] at hnd
      exact hnd.1
    · exact ih hnd.2 hb' hc'

/-- Claim C5 counterexample: a task enqueued at real time 1.5s with delay
1.4s is recorded with `due_at = Unix(2.9s) = 2`; a claim issued at real time
2.0s (the script receives `time.Now().Unix() = 2`) returns it, although
2.0s is earlier than `enqueue_time + d = 2.9s` — the seconds truncation lets
the claim precede `enqueue_time + d`. -/
theorem claimBeforeDue_cex :
    (taskLua (addGo { z := [], h := [] } "t1" "p" 1500000000 1400000000).z
      (unixSec 2000000000)).1 = some "t1" ∧
    (2000000000 : Int) < 1500000000 + 1400000000 := by
  decide

/-- Claim C5 (amended): the recorded due time `due_at = Unix(enqueue_time +
delay)` is a lower bound on the real claim time: when a claim issued at real
time `nowNs` (the script receives `unixSec nowNs`) returns an id recorded
with that due time, then `due_at`, expressed in nanoseconds, is at most
`nowNs`.  Because `Unix()` truncates to whole seconds, this bound can
precede `enqueue_time + delay` itself by up to one second (see the
counterexample), but the claim can never precede the recorded `due_at`. -/
theorem dueAtLowerBound_amended (z : ZSet) (id : String)
    (enqNs delayNs nowNs : Int) (z' : ZSet)
    (hnodup : (z.map Prod.fst).Nodup)
    (hmem : (id, addDueAt enqNs delayNs) ∈ z)
    (hclaim : taskLua z (unixSec nowNs) = (some id, z')) :
    addDueAt enqNs delayNs * nsPerSec ≤ nowNs := by
  have hfst : (taskLua z (unixSec nowNs)).1 = some id := by rw [hclaim]
  rcases taskLua_fst_some hfst with ⟨e, hez, hid, hdue⟩
  have he : (id, e.2) ∈ z := by
    rw [← hid]
    exact hez
  have heq : e.2 = addDueAt enqNs delayNs := nodup_keys_eq hnodup he hmem
  rw [heq] at hdue
  have hpos : (0 : Int) < nsPerSec := by decide
  exact (Int.le_ediv_iff_mul_le hpos).mp hdue

/-- Witness for `dueAtLowerBound_amended`: the task recorded with due time
`addDueAt 1500000000 500000000 = 2` is claimed at real time 2.5s, and the
due time in nanoseconds (2s) is indeed below 2.5s. -/
theorem dueAtLowerBound_amended_witness :
    addDueAt 1500000000 500000000 * nsPerSec ≤ (2500000000 : Int) :=
  dueAtLowerBound_amended [("t", 2)] "t" 1500000000 500000000 2500000000 []
    (by decide) (by decide) (by decide)

/-- The claim on a one-entry index whose entry is due returns that entry. -/
theorem taskLua_singleton (i : String) (d now : Int) (h : d ≤ now) :
    taskLua [(i, d)] now = (some i, []) := by
  unfold taskLua zFirst
  simp [List.filter_cons, h]

/-- Claim C9: round-trip.  `add(payload, 0)` on a fresh queue followed by a
claim at any `nowNs ≥ enqNs` returns the task's id, and the stored bytes for
that id, deserialized, equal the original payload, for every serialization
scheme that inverts on its output (as `encoding/json` does for the values it
accepts). -/
theorem addClaimRoundtrip {α : Type} (marshal : α → String)
    (unmarshal : String → Option α)
    (hcodec : ∀ a, unmarshal (marshal a) = some a)
    (p : α) (id : String) (enqNs nowNs : Int) (hnow : enqNs ≤ nowNs) :
    (taskLua (addGo { z := [], h := [] } id (marshal p) enqNs 0).z
      (unixSec nowNs)).1 = some id ∧
    ((hget (addGo { z := [], h := [] } id (marshal p) enqNs 0).h id).bind
      unmarshal) = some p := by
  constructor
  · have hdue : addDueAt enqNs 0 ≤ unixSec nowNs := by
      unfold addDueAt unixSec
      exact Int.ediv_le_ediv (by decide) (by omega)
    show (taskLua [(id, addDueAt enqNs 0)] (unixSec nowNs)).1 = some id
    rw [taskLua_singleton id _ _ hdue]
  · show (hget [(id, marshal p)] id).bind unmarshal = some p
    unfold hget
    simp [List.find?, hcodec p]

/-- Witness for `addClaimRoundtrip` with the identity codec on strings:
payload `"hello"` enqueued with delay 0 at 1s is claimed at 1s and
deserializes back to `"hello"`. -/
theorem addClaimRoundtrip_witness :
    (taskLua (addGo { z := [], h := [] } "t9" "hello" 1000000000 0).z
      (unixSec 1000000000)).1 = some "t9" ∧
    ((hget (addGo { z := [], h := [] } "t9" "hello" 1000000000 0).h "t9").bind
      (fun s => (some s : Option String))) = some "hello" :=
  addClaimRoundtrip (fun s => s) (fun s => some s) (fun _ => rfl) "hello" "t9"
    1000000000 1000000000 (by decide)

/-- Claim C10: a queue instance is single-use.  `Stop` cancels the context
and the first `run` loop exits and closes `q.stopped`; a second `Start`'s
run loop finds the context already cancelled, exits immediately, and its
deferred `close(q.stopped)` panics on the already-closed channel. -/
theorem secondStartPanics :
    stopSequence newQueueLife = .ok { cancelled := true, stoppedClosed := true } ∧
    startStopStart = .panicked := by
  decide

/-- The semaphore invariant: every live `handleTask` goroutine holds exactly
one unit of the buffered channel (their total equals its occupancy), and the
occupancy never exceeds the channel capacity `concurrency`. -/
def SemInv (cfg : Config) (s : QState) : Prop :=
  s.nFetch + s.nHandle + s.nDelete = s.semUsed ∧ s.semUsed ≤ cfg.concurrency

theorem semInv_step {cfg : Config} {s s' : QState}
    (h : SemInv cfg s) (hs : QStep cfg s s') : SemInv cfg s' := by
  obtain ⟨h1, h2⟩ := h
  cases hs <;> exact ⟨by simp only []; omega, by simp only []; omega⟩

theorem reachable_semInv {cfg : Config} {z : ZSet} {s : QState}
    (h : Reachable cfg z s) : SemInv cfg s := by
  induction h with
  | refl => exact ⟨rfl, Nat.zero_le _⟩
  | tail _ hstep ih => exact semInv_step ih hstep

/-- Claim C7: in every reachable state the number of goroutines currently
executing the user handler is at most the configured concurrency (default
10): every live `handleTask` goroutine holds exactly one semaphore unit from
before its launch until it finishes, the channel occupancy never exceeds the
capacity, and reservation is non-blocking — when the channel is full, no
step issues a claim (the tick's attempt is skipped, not queued). -/
theorem concurrencyCeiling (cfg : Config) (z : ZSet) (s : QState)
    (h : Reachable cfg z s) :
    s.nHandle ≤ cfg.concurrency ∧
    s.nFetch + s.nHandle + s.nDelete = s.semUsed ∧
    s.semUsed ≤ cfg.concurrency ∧
    (∀ s', QStep cfg s s' → s.semUsed = cfg.concurrency →
      s'.claims = s.claims) := by
  obtain ⟨h1, h2⟩ := reachable_semInv h
  refine ⟨by omega, h1, h2, ?_⟩
  intro s' hs hfull
  cases hs <;> first | rfl | omega

/-- Witness for `concurrencyCeiling`: after one spawn step from the fresh
queue, one goroutine is live, none is inside the handler, and the bound by
the default concurrency 10 holds. -/
theorem concurrencyCeiling_witness :
    ({ cancelled := false, exited := false, semUsed := 1, nFetch := 1,
       nHandle := 0, nDelete := 0, z := [], claims := 1 } : QState).nHandle
      ≤ defaultConfig.concurrency :=
  (concurrencyCeiling defaultConfig [] _
    (Relation.ReflTransGen.single
      (QStep.spawnIter (initState []) 0 rfl (by decide)))).1

theorem step_after_exit {cfg : Config} {s s' : QState}
    (hex : s.exited = true) (hs : QStep cfg s s') :
    s'.claims = s.claims ∧ s'.exited = true := by
  cases hs <;> simp_all

/-- Claim C8: once `Stop` has returned — which requires the `run` loop to
have observed cancellation, returned, and closed `q.stopped`, i.e. a state
with `exited = true` — no further claim calls are issued: every step
sequence from such a state leaves the claim counter unchanged (and the loop
stays exited; in-flight `handleTask` goroutines may still finish, but none
of them runs the claim script). -/
theorem stopNoFurtherClaims (cfg : Config) (s s' : QState)
    (hex : s.exited = true)
    (hsteps : Relation.ReflTransGen (QStep cfg) s s') :
    s'.claims = s.claims ∧ s'.exited = true := by
  induction hsteps with
  | refl => exact ⟨rfl, hex⟩
  | tail _ hstep ih =>
    have h2 := step_after_exit ih.2 hstep
    exact ⟨h2.1.trans ih.1, h2.2⟩

/-- Witness for `stopNoFurtherClaims`: from an exited state with one
goroutine still fetching, that goroutine finishing leaves the claim counter
at its value 5. -/
theorem stopNoFurtherClaims_witness :
    ({ cancelled := true, exited := true, semUsed := 0, nFetch := 0,
       nHandle := 0, nDelete := 0, z := [], claims := 5 } : QState).claims =
      ({ cancelled := true, exited := true, semUsed := 1, nFetch := 1,
         nHandle := 0, nDelete := 0, z := [], claims := 5 } : QState).claims ∧
    ({ cancelled := true, exited := true, semUsed := 0, nFetch := 0,
       nHandle := 0, nDelete := 0, z := [], claims := 5 } : QState).exited
      = true :=
  stopNoFurtherClaims defaultConfig
    { cancelled := true, exited := true, semUsed := 1, nFetch := 1,
      nHandle := 0, nDelete := 0, z := [], claims := 5 } _ rfl
    (Relation.ReflTransGen.single (QStep.fetchFail _ (by decide)))

end DelayQueue
